import Mathlib

/-!
Shallow embedding of `src/packages/mcp/src/utils/cache.ts` (the SharedCache
singleton of the salesforce-mcp repository).

Modelling choices, all driven by the source:

* A JS `Map<string, ToolInfo[]>` is represented by its insertion-ordered
  contents, an association list `ToolMap α` with unique keys.  `mapHas`,
  `mapGet?`, `mapSet` and `mapDelete` mirror `Map.prototype.has/get/set/delete`
  (`set` on an existing key updates the value in place in the order,
  otherwise appends at the end; `delete` removes the binding of the key —
  a JS `Map` holds at most one binding per key, so removing every binding
  with that key is the same operation).
* JS `Map` objects have reference semantics and the copy-on-write claims of
  the spec are about aliasing, so map OBJECTS live in an explicit heap:
  `CacheState.heap` is the list of allocated map objects, a reference is an
  index into it, and the cache's `tools` entry stores a reference
  (`toolsRef`).  `new Map(old)` is `heapAlloc` of the old contents;
  `updated.set(...)` / `updated.delete(...)` is `heapWrite` at the fresh
  reference.
* `ToolInfo[]` arrays are modelled as immutable `List α` values: the source
  never mutates an array in place (it only builds fresh arrays with spreads
  `[...]` or receives fresh ones from `updateFn`), so array identity is
  unobservable inside the embedded code.
* The mutex makes every `safeGet`/`safeSet`/`safeUpdate` body one atomic
  step; concurrency is modelled by quantifying over the serialization order
  the mutex produces.  A throwing `updateFn` is a function into `Except`:
  the `error` branch of `safeUpdate` skips the write exactly as a JS
  exception skips `cache.set`.
* `allowedOrgs` is a `Set<string>`; its contents are a `List String`
  (no claim inspects set-ness beyond emptiness and being left unchanged).
-/

set_option autoImplicit false

namespace SalesforceMcpCache

variable {α : Type}

/-- Contents of a JS `Map<string, ToolInfo[]>`: insertion-ordered bindings. -/
abbrev ToolMap (α : Type) := List (String × List α)

/-- `Map.prototype.has`. -/
def mapHas (m : ToolMap α) (k : String) : Bool :=
  match m with
  | [] => false
  | (k', _) :: t => k' == k || mapHas t k

/-- `Map.prototype.get` (`undefined` becomes `none`). -/
def mapGet? (m : ToolMap α) (k : String) : Option (List α) :=
  match m with
  | [] => none
  | (k', v) :: t => if k' == k then some v else mapGet? t k

/-- `Map.prototype.set`: update the existing binding in place in the
insertion order, or append a fresh binding at the end. -/
def mapSet (m : ToolMap α) (k : String) (v : List α) : ToolMap α :=
  match m with
  | [] => [(k, v)]
  | (k', w) :: t => if k' == k then (k', v) :: t else (k', w) :: mapSet t k v

/-- `Map.prototype.delete` (result state only): remove the binding of `k`.
A JS `Map` holds at most one binding per key, so removing every binding
with key `k` is the same operation on every reachable map. -/
def mapDelete (m : ToolMap α) (k : String) : ToolMap α :=
  match m with
  | [] => []
  | (k', w) :: t => if k' == k then mapDelete t k else (k', w) :: mapDelete t k

/-- The state of the singleton `Cache`: the heap of allocated map objects,
the reference stored under the `tools` key, and the contents of the
`allowedOrgs` set. -/
structure CacheState (α : Type) where
  heap : List (ToolMap α)
  toolsRef : Nat
  allowedOrgs : List String

/-- Dereference a map object (out-of-range references never occur on
reachable states; they read as the empty map). -/
def heapGet (st : CacheState α) (r : Nat) : ToolMap α :=
  (st.heap.get? r).getD []

/-- `new Map(contents)`: allocate a fresh map object, returning the new
state and the fresh reference. -/
def heapAlloc (st : CacheState α) (m : ToolMap α) : CacheState α × Nat :=
  ({ st with heap := st.heap ++ [m] }, st.heap.length)

/-- Mutate the map object behind reference `r`. -/
def heapWrite (st : CacheState α) (r : Nat) (m : ToolMap α) : CacheState α :=
  { st with heap := st.heap.set r m }

/-- Contents of the live `tools` mapping (`cache.get('tools')`, dereferenced). -/
def toolsMap (st : CacheState α) : ToolMap α :=
  heapGet st st.toolsRef

/-- The two keys of `CacheContents`. -/
inductive CacheKey
  | allowedOrgs
  | tools
deriving DecidableEq

/-- `CacheContents[K]`: the type of the value stored under each key
(`tools` stores a reference to a map object). -/
@[reducible] def KeyVal (α : Type) : CacheKey → Type
  | .allowedOrgs => List String
  | .tools => Nat

/-- `cache.get(key)` of the underlying `Map` (always present on reachable
states, matching the non-optional cast in the source's `get` override). -/
def cacheGet (st : CacheState α) : (k : CacheKey) → KeyVal α k
  | .allowedOrgs => st.allowedOrgs
  | .tools => st.toolsRef

/-- `cache.set(key, value)` of the underlying `Map`. -/
def cacheSet (st : CacheState α) : (k : CacheKey) → KeyVal α k → CacheState α
  | .allowedOrgs, v => { st with allowedOrgs := v }
  | .tools, r => { st with toolsRef := r }

/-- `Cache.DEFAULT_TOOL_SESSION_ID`. -/
def DEFAULT_TOOL_SESSION_ID : String := "default"

/-- `initialize()` as run by the private constructor:
`allowedOrgs ↦ new Set()` and `tools ↦ new Map([[DEFAULT_TOOL_SESSION_ID, []]])`
(one fresh map object on the heap). -/
def initState (α : Type) : CacheState α :=
  let base : CacheState α := { heap := [], toolsRef := 0, allowedOrgs := [] }
  let st1 : CacheState α := { base with allowedOrgs := [] }
  let ar := heapAlloc st1 [(DEFAULT_TOOL_SESSION_ID, ([] : List α))]
  { ar.1 with toolsRef := ar.2 }

/-- `safeUpdate(key, updateFn)`: under the mutex, read the current value,
apply `updateFn`, store and return the result.  A throwing `updateFn`
(`Except.error`) propagates and `cache.set` never runs. -/
def safeUpdate {ε : Type} (st : CacheState α) (k : CacheKey)
    (updateFn : KeyVal α k → Except ε (KeyVal α k)) :
    CacheState α × Except ε (KeyVal α k) :=
  match updateFn (cacheGet st k) with
  | .error e => (st, .error e)
  | .ok v => (cacheSet st k v, .ok v)

/-- `safeGet(key)`: under the mutex, return the current value; no write. -/
def safeGet (st : CacheState α) (k : CacheKey) : KeyVal α k × CacheState α :=
  (cacheGet st k, st)

/-- `safeSet(key, value)`: under the mutex, replace the value wholesale. -/
def safeSet (st : CacheState α) (k : CacheKey) (v : KeyVal α k) : CacheState α :=
  cacheSet st k v

/-- `resolveToolSessionId(sessionId?)`: `sessionId ?? DEFAULT_TOOL_SESSION_ID`.
The nullish-coalescing operator substitutes the default only for
`null`/`undefined` (`none`); any provided string, the empty string
included, is returned as-is. -/
def resolveToolSessionId (sessionId : Option String) : String :=
  sessionId.getD DEFAULT_TOOL_SESSION_ID

/-- `ensureToolSession(sessionId?)`: via `safeUpdate('tools', …)` — if the
resolved session is present, `updateFn` returns the same map reference and
the write stores it back unchanged; otherwise it allocates `new Map(toolMap)`,
sets the resolved session to `[]` on the copy and stores the fresh reference. -/
def ensureToolSession (st : CacheState α) (sessionId : Option String) : CacheState α :=
  let resolvedSessionId := resolveToolSessionId sessionId
  let toolMap := toolsMap st
  if mapHas toolMap resolvedSessionId then
    st
  else
    let ar := heapAlloc st toolMap
    let st2 := heapWrite ar.1 ar.2 (mapSet toolMap resolvedSessionId [])
    { st2 with toolsRef := ar.2 }

/-- `resetToolsForSession(sessionId?)`: via `safeUpdate('tools', …)` —
unconditionally allocate `new Map(toolMap)`, bind the resolved session to
`[]` on the copy, store the fresh reference. -/
def resetToolsForSession (st : CacheState α) (sessionId : Option String) : CacheState α :=
  let resolvedSessionId := resolveToolSessionId sessionId
  let toolMap := toolsMap st
  let ar := heapAlloc st toolMap
  let st2 := heapWrite ar.1 ar.2 (mapSet toolMap resolvedSessionId [])
  { st2 with toolsRef := ar.2 }

/-- `deleteToolSession(sessionId?)`: via `safeUpdate('tools', …)` — if the
resolved session is absent, return the same map reference; otherwise
allocate `new Map(toolMap)`, delete the entry on the copy, store the fresh
reference. -/
def deleteToolSession (st : CacheState α) (sessionId : Option String) : CacheState α :=
  let resolvedSessionId := resolveToolSessionId sessionId
  let toolMap := toolsMap st
  if mapHas toolMap resolvedSessionId then
    let ar := heapAlloc st toolMap
    let st2 := heapWrite ar.1 ar.2 (mapDelete toolMap resolvedSessionId)
    { st2 with toolsRef := ar.2 }
  else
    st

/-- `getToolsForSession(sessionId?)`: via `safeGet('tools')`, dereference,
read the resolved session's sequence (`?? []`), return a copy `[...tools]`
(the identity on an immutable list).  The returned state is that of the
read, which performs no write. -/
def getToolsForSession (st : CacheState α) (sessionId : Option String) :
    List α × CacheState α :=
  let resolvedSessionId := resolveToolSessionId sessionId
  let gr := safeGet st CacheKey.tools
  let toolMap := heapGet gr.2 gr.1
  let tools := (mapGet? toolMap resolvedSessionId).getD []
  (tools, gr.2)

/-- `updateToolsForSession(sessionId, updateFn)` with a possibly-throwing
`updateFn`: read the resolved session's sequence (`?? []`), pass a copy to
`updateFn`; on a throw the exception propagates before any allocation or
write; otherwise allocate `new Map(toolMap)`, bind the resolved session to
the computed sequence on the copy, store the fresh reference, and return
the computed sequence. -/
def updateToolsForSessionE {ε : Type} (st : CacheState α) (sessionId : Option String)
    (updateFn : List α → Except ε (List α)) : CacheState α × Except ε (List α) :=
  let resolvedSessionId := resolveToolSessionId sessionId
  let toolMap := toolsMap st
  let existingTools := (mapGet? toolMap resolvedSessionId).getD []
  match updateFn existingTools with
  | .error e => (st, .error e)
  | .ok updatedTools =>
      let ar := heapAlloc st toolMap
      let st2 := heapWrite ar.1 ar.2 (mapSet toolMap resolvedSessionId updatedTools)
      ({ st2 with toolsRef := ar.2 }, .ok updatedTools)

/-- `updateToolsForSession` with a non-throwing `updateFn` (the common case;
see `updateToolsForSessionE_ok` for the agreement with the fallible form). -/
def updateToolsForSession (st : CacheState α) (sessionId : Option String)
    (updateFn : List α → List α) : CacheState α × List α :=
  let resolvedSessionId := resolveToolSessionId sessionId
  let toolMap := toolsMap st
  let existingTools := (mapGet? toolMap resolvedSessionId).getD []
  let updatedTools := updateFn existingTools
  let ar := heapAlloc st toolMap
  let st2 := heapWrite ar.1 ar.2 (mapSet toolMap resolvedSessionId updatedTools)
  ({ st2 with toolsRef := ar.2 }, updatedTools)

/-- N sequential `updateToolsForSession(sid, tools ⇒ [...tools, x])` calls,
one per element of `items`: the serialization the mutex produces for N
concurrent appenders, in the order the lock was granted. -/
def appendRun (st : CacheState α) (sid : Option String) (items : List α) : CacheState α :=
  items.foldl (fun s x => (updateToolsForSession s sid (fun ts => ts ++ [x])).1) st

theorem updateToolsForSessionE_ok (st : CacheState α) (sid : Option String)
    (f : List α → List α) :
    updateToolsForSessionE (ε := Unit) st sid (fun ts => Except.ok (f ts)) =
      ((updateToolsForSession st sid f).1, Except.ok (updateToolsForSession st sid f).2) := rfl

/-! ### Heap lemmas: allocate-then-mutate touches only the fresh cell -/

theorem set_concat_self {β : Type} (hp : List β) (m v : β) :
    (hp ++ [m]).set hp.length v = hp ++ [v] := by
  induction hp with
  | nil => rfl
  | cons a t ih =>
      show a :: (t ++ [m]).set t.length v = a :: (t ++ [v])
      rw [ih]

theorem get?_concat_self {β : Type} (hp : List β) (v : β) :
    (hp ++ [v]).get? hp.length = some v := by
  induction hp with
  | nil => rfl
  | cons a t ih => exact ih

theorem get?_concat_lt {β : Type} (hp : List β) (v : β) (r : Nat) (h : r < hp.length) :
    (hp ++ [v]).get? r = hp.get? r := by
  induction hp generalizing r with
  | nil => exact absurd h (Nat.not_lt_zero r)
  | cons a t ih =>
      cases r with
      | zero => rfl
      | succ n => exact ih n (Nat.lt_of_succ_lt_succ h)

/-! ### Map lemmas -/

theorem mapGet?_mapSet_self (m : ToolMap α) (k : String) (v : List α) :
    mapGet? (mapSet m k v) k = some v := by
  induction m with
  | nil => simp [mapSet, mapGet?]
  | cons p t ih =>
      obtain ⟨k', w⟩ := p
      by_cases h : k' == k
      · simp [mapSet, mapGet?, h]
      · simp only [mapSet, mapGet?, h, if_neg, Bool.not_eq_true] at *
        simpa [mapGet?, h] using ih

theorem mapHas_eq_isSome (m : ToolMap α) (k : String) :
    mapHas m k = (mapGet? m k).isSome := by
  induction m with
  | nil => rfl
  | cons p t ih =>
      obtain ⟨k', w⟩ := p
      by_cases h : k' == k
      · simp [mapHas, mapGet?, h]
      · simp [mapHas, mapGet?, h, ih]

theorem mapHas_mapSet_self (m : ToolMap α) (k : String) (v : List α) :
    mapHas (mapSet m k v) k = true := by
  rw [mapHas_eq_isSome, mapGet?_mapSet_self]
  rfl

theorem mapGet?_mapDelete_self (m : ToolMap α) (k : String) :
    mapGet? (mapDelete m k) k = none := by
  induction m with
  | nil => rfl
  | cons p t ih =>
      obtain ⟨k', w⟩ := p
      by_cases h : k' == k
      · simpa [mapDelete, h] using ih
      · simpa [mapDelete, mapGet?, h] using ih

theorem mapHas_mapDelete_self (m : ToolMap α) (k : String) :
    mapHas (mapDelete m k) k = false := by
  rw [mapHas_eq_isSome, mapGet?_mapDelete_self]
  rfl

theorem mapGet?_eq_none_of_not_has (m : ToolMap α) (k : String)
    (h : mapHas m k = false) : mapGet? m k = none := by
  rw [mapHas_eq_isSome] at h
  exact Option.not_isSome_iff_eq_none.mp (by simp [h])

/-! ### Computing the observable results of each operation -/

theorem getTools_fst (st : CacheState α) (sid : Option String) :
    (getToolsForSession st sid).1 =
      (mapGet? (toolsMap st) (resolveToolSessionId sid)).getD [] := rfl

theorem getTools_snd (st : CacheState α) (sid : Option String) :
    (getToolsForSession st sid).2 = st := rfl

theorem toolsMap_reset (st : CacheState α) (sid : Option String) :
    toolsMap (resetToolsForSession st sid) =
      mapSet (toolsMap st) (resolveToolSessionId sid) [] := by
  show (((st.heap ++ [toolsMap st]).set st.heap.length
      (mapSet (toolsMap st) (resolveToolSessionId sid) [])).get? st.heap.length).getD [] = _
  rw [set_concat_self, get?_concat_self]
  rfl

theorem ensure_of_has (st : CacheState α) (sid : Option String)
    (h : mapHas (toolsMap st) (resolveToolSessionId sid) = true) :
    ensureToolSession st sid = st := by
  unfold ensureToolSession
  simp [h]

theorem toolsMap_ensure_of_not_has (st : CacheState α) (sid : Option String)
    (h : mapHas (toolsMap st) (resolveToolSessionId sid) = false) :
    toolsMap (ensureToolSession st sid) =
      mapSet (toolsMap st) (resolveToolSessionId sid) [] := by
  unfold ensureToolSession
  simp only [h, Bool.false_eq_true, if_false]
  show (((st.heap ++ [toolsMap st]).set st.heap.length
      (mapSet (toolsMap st) (resolveToolSessionId sid) [])).get? st.heap.length).getD [] = _
  rw [set_concat_self, get?_concat_self]
  rfl

theorem delete_of_not_has (st : CacheState α) (sid : Option String)
    (h : mapHas (toolsMap st) (resolveToolSessionId sid) = false) :
    deleteToolSession st sid = st := by
  unfold deleteToolSession
  simp [h]

theorem toolsMap_delete_of_has (st : CacheState α) (sid : Option String)
    (h : mapHas (toolsMap st) (resolveToolSessionId sid) = true) :
    toolsMap (deleteToolSession st sid) =
      mapDelete (toolsMap st) (resolveToolSessionId sid) := by
  unfold deleteToolSession
  simp only [h, if_true]
  show (((st.heap ++ [toolsMap st]).set st.heap.length
      (mapDelete (toolsMap st) (resolveToolSessionId sid))).get? st.heap.length).getD [] = _
  rw [set_concat_self, get?_concat_self]
  rfl

theorem toolsMap_update (st : CacheState α) (sid : Option String) (f : List α → List α) :
    toolsMap (updateToolsForSession st sid f).1 =
      mapSet (toolsMap st) (resolveToolSessionId sid)
        (f ((mapGet? (toolsMap st) (resolveToolSessionId sid)).getD [])) := by
  show (((st.heap ++ [toolsMap st]).set st.heap.length
      (mapSet (toolsMap st) (resolveToolSessionId sid)
        (f ((mapGet? (toolsMap st) (resolveToolSessionId sid)).getD [])))).get?
        st.heap.length).getD [] = _
  rw [set_concat_self, get?_concat_self]
  rfl

theorem heap_frame_core (hp : List (ToolMap α)) (m v : ToolMap α) (r : Nat)
    (h : r < hp.length) :
    ((hp ++ [m]).set hp.length v).get? r = hp.get? r := by
  rw [set_concat_self]
  exact get?_concat_lt hp v r h

theorem heapGet_ensure (st : CacheState α) (sid : Option String) (r : Nat)
    (h : r < st.heap.length) :
    heapGet (ensureToolSession st sid) r = heapGet st r := by
  unfold ensureToolSession
  by_cases hc : mapHas (toolsMap st) (resolveToolSessionId sid) = true
  · simp [hc]
  · simp only [hc, if_neg, Bool.not_eq_true]
    show ((((st.heap ++ [toolsMap st]).set st.heap.length
        (mapSet (toolsMap st) (resolveToolSessionId sid) [])).get? r).getD []) = _
    rw [heap_frame_core st.heap _ _ r h]
    rfl

theorem heapGet_reset (st : CacheState α) (sid : Option String) (r : Nat)
    (h : r < st.heap.length) :
    heapGet (resetToolsForSession st sid) r = heapGet st r := by
  show ((((st.heap ++ [toolsMap st]).set st.heap.length
      (mapSet (toolsMap st) (resolveToolSessionId sid) [])).get? r).getD []) = _
  rw [heap_frame_core st.heap _ _ r h]
  rfl

theorem heapGet_delete (st : CacheState α) (sid : Option String) (r : Nat)
    (h : r < st.heap.length) :
    heapGet (deleteToolSession st sid) r = heapGet st r := by
  unfold deleteToolSession
  by_cases hc : mapHas (toolsMap st) (resolveToolSessionId sid) = true
  · simp only [hc, if_true]
    show ((((st.heap ++ [toolsMap st]).set st.heap.length
        (mapDelete (toolsMap st) (resolveToolSessionId sid))).get? r).getD []) = _
    rw [heap_frame_core st.heap _ _ r h]
    rfl
  · simp [hc]

theorem heapGet_update (st : CacheState α) (sid : Option String) (f : List α → List α)
    (r : Nat) (h : r < st.heap.length) :
    heapGet (updateToolsForSession st sid f).1 r = heapGet st r := by
  show ((((st.heap ++ [toolsMap st]).set st.heap.length
      (mapSet (toolsMap st) (resolveToolSessionId sid)
        (f ((mapGet? (toolsMap st) (resolveToolSessionId sid)).getD [])))).get? r).getD []) = _
  rw [heap_frame_core st.heap _ _ r h]
  rfl

/-- C1: copy-on-write isolation.  Any map object allocated before the call —
in particular any snapshot of the `tools` value a caller holds — keeps
exactly its contents (its keys and the sequence bound to each key) across
`ensureToolSession`, `resetToolsForSession`, `deleteToolSession` and
`updateToolsForSession` with any session id and any update function: every
mutation writes only a freshly allocated map object. -/
theorem cow_isolation (st : CacheState α) (sid : Option String) (f : List α → List α)
    (r : Nat) (h : r < st.heap.length) :
    heapGet (ensureToolSession st sid) r = heapGet st r
    ∧ heapGet (resetToolsForSession st sid) r = heapGet st r
    ∧ heapGet (deleteToolSession st sid) r = heapGet st r
    ∧ heapGet (updateToolsForSession st sid f).1 r = heapGet st r :=
  ⟨heapGet_ensure st sid r h, heapGet_reset st sid r h,
   heapGet_delete st sid r h, heapGet_update st sid f r h⟩

/-- C1 witness: the freshly initialized state holds the `tools` map at
reference 0, and every operation leaves that object's contents intact. -/
theorem cow_isolation_witness :
    0 < (initState Nat).heap.length
    ∧ (heapGet (ensureToolSession (initState Nat) (some "s1")) 0 = heapGet (initState Nat) 0
       ∧ heapGet (resetToolsForSession (initState Nat) (some "s1")) 0 = heapGet (initState Nat) 0
       ∧ heapGet (deleteToolSession (initState Nat) (some "s1")) 0 = heapGet (initState Nat) 0
       ∧ heapGet (updateToolsForSession (initState Nat) (some "s1") (fun ts => ts ++ [7])).1 0 =
           heapGet (initState Nat) 0) :=
  ⟨by decide, cow_isolation (initState Nat) (some "s1") (fun ts => ts ++ [7]) 0 (by decide)⟩

/-- C2: update-failure atomicity.  When the update function throws
(`Except.error`), `safeUpdate` — at either key — and `updateToolsForSessionE`
propagate exactly that failure and return the state unchanged: neither the
`tools` nor the `allowedOrgs` entry is written. -/
theorem update_failure_atomic {ε : Type} (st : CacheState α) (k : CacheKey)
    (f : KeyVal α k → Except ε (KeyVal α k)) (e : ε)
    (hf : f (cacheGet st k) = Except.error e)
    (sid : Option String) (g : List α → Except ε (List α)) (e2 : ε)
    (hg : g ((mapGet? (toolsMap st) (resolveToolSessionId sid)).getD []) = Except.error e2) :
    safeUpdate st k f = (st, Except.error e)
    ∧ updateToolsForSessionE st sid g = (st, Except.error e2) := by
  constructor
  · unfold safeUpdate
    rw [hf]
  · simp only [updateToolsForSessionE]
    rw [hg]

/-- C2 witness: a concrete always-throwing update function at both entry
points leaves the freshly initialized state untouched and surfaces the error. -/
theorem update_failure_atomic_witness :
    safeUpdate (initState Nat) CacheKey.allowedOrgs
        (fun _ => (Except.error () : Except Unit (List String))) =
      (initState Nat, Except.error ())
    ∧ updateToolsForSessionE (initState Nat) none
        (fun _ => (Except.error () : Except Unit (List Nat))) =
      (initState Nat, Except.error ()) :=
  update_failure_atomic (initState Nat) CacheKey.allowedOrgs
    (fun _ => Except.error ()) () rfl none (fun _ => Except.error ()) () rfl

/-- C3 counterexample: the claim says an empty session id resolves to the
default session identifier, but the source's nullish coalescing returns the
provided empty string as-is. -/
theorem resolve_empty_counterexample :
    ¬ resolveToolSessionId (some "") = DEFAULT_TOOL_SESSION_ID := by
  decide

/-- C3 (amended): `resolveToolSessionId` returns every provided string
unchanged — the empty string included — and returns the default-session
identifier `"default"` exactly when the argument is omitted or undefined;
it is a pure function of its argument. -/
theorem resolve_session_id (s : String) :
    resolveToolSessionId (some s) = s
    ∧ resolveToolSessionId none = DEFAULT_TOOL_SESSION_ID
    ∧ DEFAULT_TOOL_SESSION_ID = "default" :=
  ⟨rfl, rfl, rfl⟩

theorem getTools_appendRun (st : CacheState α) (sid : Option String) (items : List α) :
    (getToolsForSession (appendRun st sid items) sid).1 =
      (getToolsForSession st sid).1 ++ items := by
  induction items generalizing st with
  | nil => simp [appendRun]
  | cons x t ih =>
      show (getToolsForSession
          (appendRun (updateToolsForSession st sid (fun ts => ts ++ [x])).1 sid t) sid).1 = _
      rw [ih, getTools_fst, toolsMap_update, mapGet?_mapSet_self]
      rw [getTools_fst]
      simp

/-- C4: no lost updates under contention.  However the mutex serializes N
concurrent `updateToolsForSession(sid, tools ⇒ [...tools, x])` calls (any
order `items` of the N pairwise-distinct new items), a session that starts
empty ends with exactly the N items: the final sequence is `items` itself,
its length is N, and each item occurs exactly once. -/
theorem no_lost_updates [DecidableEq α] (st : CacheState α) (sid : Option String)
    (items : List α) (h0 : (getToolsForSession st sid).1 = [])
    (hnd : items.Nodup) :
    (getToolsForSession (appendRun st sid items) sid).1 = items
    ∧ (getToolsForSession (appendRun st sid items) sid).1.length = items.length
    ∧ ∀ x ∈ items, (getToolsForSession (appendRun st sid items) sid).1.count x = 1 := by
  have hrun : (getToolsForSession (appendRun st sid items) sid).1 = items := by
    rw [getTools_appendRun, h0]
    rfl
  refine ⟨hrun, by rw [hrun], fun x hx => ?_⟩
  rw [hrun]
  exact List.count_eq_one_of_mem hnd hx

/-- C4 witness: three serialized appenders of distinct items against the
fresh (empty) session `"s1"` of the initial state produce exactly those
three items. -/
theorem no_lost_updates_witness :
    (getToolsForSession (initState Nat) (some "s1")).1 = []
    ∧ ([1, 2, 3] : List Nat).Nodup
    ∧ ((getToolsForSession (appendRun (initState Nat) (some "s1") [1, 2, 3]) (some "s1")).1 =
         [1, 2, 3]
       ∧ (getToolsForSession (appendRun (initState Nat) (some "s1") [1, 2, 3]) (some "s1")).1.length =
           ([1, 2, 3] : List Nat).length
       ∧ ∀ x ∈ ([1, 2, 3] : List Nat),
           (getToolsForSession (appendRun (initState Nat) (some "s1") [1, 2, 3]) (some "s1")).1.count x = 1) :=
  ⟨by decide, by decide,
   no_lost_updates (initState Nat) (some "s1") [1, 2, 3] (by decide) (by decide)⟩

/-- C5: idempotent ensure.  `ensureToolSession` twice is the same state as
once; when the resolved session already has an entry the call returns the
state unchanged (same mapping reference, no replacement); and after an
ensure the session's entry is its previous sequence when one existed and
`[]` only when none did — an already-populated session is never reset. -/
theorem ensure_idempotent (st : CacheState α) (sid : Option String) :
    ensureToolSession (ensureToolSession st sid) sid = ensureToolSession st sid
    ∧ (mapHas (toolsMap st) (resolveToolSessionId sid) = true → ensureToolSession st sid = st)
    ∧ mapGet? (toolsMap (ensureToolSession st sid)) (resolveToolSessionId sid) =
        some ((mapGet? (toolsMap st) (resolveToolSessionId sid)).getD []) := by
  by_cases hc : mapHas (toolsMap st) (resolveToolSessionId sid) = true
  · have he : ensureToolSession st sid = st := ensure_of_has st sid hc
    refine ⟨by rw [he, he], fun _ => he, ?_⟩
    rw [he]
    have hs := mapHas_eq_isSome (toolsMap st) (resolveToolSessionId sid)
    rw [hc] at hs
    cases hq : mapGet? (toolsMap st) (resolveToolSessionId sid) with
    | none => rw [hq] at hs; exact absurd hs.symm (by simp)
    | some w => rfl
  · have hc' : mapHas (toolsMap st) (resolveToolSessionId sid) = false := by
      simpa using hc
    have ht := toolsMap_ensure_of_not_has st sid hc'
    have h2 : mapHas (toolsMap (ensureToolSession st sid)) (resolveToolSessionId sid) = true := by
      rw [ht]; exact mapHas_mapSet_self _ _ _
    refine ⟨ensure_of_has _ sid h2, fun habs => absurd habs hc, ?_⟩
    rw [ht, mapGet?_mapSet_self, mapGet?_eq_none_of_not_has _ _ hc']
    rfl

/-- C5 witness: the default session exists in the initial state, so ensuring
it leaves the state untouched. -/
theorem ensure_idempotent_witness :
    ensureToolSession (initState Nat) none = initState Nat :=
  (ensure_idempotent (initState Nat) none).2.1 (by decide)

/-- C6: delete semantics.  After `deleteToolSession` the resolved session is
absent from the `tools` mapping; `getToolsForSession` then returns the empty
sequence as a read-only default without touching the state; a subsequent
`ensureToolSession` creates a fresh empty entry rather than restoring the
old sequence; and deleting an absent session leaves the state unchanged. -/
theorem delete_semantics (st : CacheState α) (sid : Option String) :
    mapHas (toolsMap (deleteToolSession st sid)) (resolveToolSessionId sid) = false
    ∧ (getToolsForSession (deleteToolSession st sid) sid).1 = []
    ∧ (getToolsForSession (deleteToolSession st sid) sid).2 = deleteToolSession st sid
    ∧ mapGet? (toolsMap (ensureToolSession (deleteToolSession st sid) sid))
        (resolveToolSessionId sid) = some []
    ∧ (mapHas (toolsMap st) (resolveToolSessionId sid) = false →
        deleteToolSession st sid = st) := by
  by_cases hc : mapHas (toolsMap st) (resolveToolSessionId sid) = true
  · have ht := toolsMap_delete_of_has st sid hc
    have h1 : mapHas (toolsMap (deleteToolSession st sid)) (resolveToolSessionId sid) = false := by
      rw [ht]; exact mapHas_mapDelete_self _ _
    have hg : (getToolsForSession (deleteToolSession st sid) sid).1 = [] := by
      rw [getTools_fst, ht, mapGet?_mapDelete_self]
      rfl
    have hens : mapGet? (toolsMap (ensureToolSession (deleteToolSession st sid) sid))
        (resolveToolSessionId sid) = some [] := by
      rw [toolsMap_ensure_of_not_has _ sid h1, mapGet?_mapSet_self]
    exact ⟨h1, hg, rfl, hens, fun habs => absurd hc (by simp [habs])⟩
  · have hc' : mapHas (toolsMap st) (resolveToolSessionId sid) = false := by
      simpa using hc
    have hd : deleteToolSession st sid = st := delete_of_not_has st sid hc'
    have h1 : mapHas (toolsMap (deleteToolSession st sid)) (resolveToolSessionId sid) = false := by
      rw [hd]; exact hc'
    have hg : (getToolsForSession (deleteToolSession st sid) sid).1 = [] := by
      rw [getTools_fst, hd, mapGet?_eq_none_of_not_has _ _ hc']
      rfl
    have hens : mapGet? (toolsMap (ensureToolSession (deleteToolSession st sid) sid))
        (resolveToolSessionId sid) = some [] := by
      rw [hd, toolsMap_ensure_of_not_has st sid hc', mapGet?_mapSet_self]
    exact ⟨h1, hg, rfl, hens, fun _ => hd⟩

/-- C6 witness: deleting the never-created session `"s1"` of the initial
state leaves the state unchanged. -/
theorem delete_semantics_witness :
    deleteToolSession (initState Nat) (some "s1") = initState Nat :=
  (delete_semantics (initState Nat) (some "s1")).2.2.2.2 (by decide)

/-- C7: reset semantics.  Updating a session and then resetting it reads
back as the empty sequence whatever the update produced, because
`resetToolsForSession` unconditionally binds the resolved session to `[]`,
creating the entry when absent. -/
theorem reset_semantics (st : CacheState α) (sid : Option String) (f : List α → List α) :
    (getToolsForSession (resetToolsForSession (updateToolsForSession st sid f).1 sid) sid).1 = []
    ∧ mapGet? (toolsMap (resetToolsForSession st sid)) (resolveToolSessionId sid) = some [] := by
  constructor
  · rw [getTools_fst, toolsMap_reset, mapGet?_mapSet_self]
    rfl
  · rw [toolsMap_reset, mapGet?_mapSet_self]

/-- C8: read is pure and defensive.  `getToolsForSession` returns the state
exactly as it was — a session with no entry reads as `[]` without the entry
being created — and the sequence it returns is the session's sequence as a
value (`[...tools]`), detached from the cache state. -/
theorem read_pure_defensive (st : CacheState α) (sid : Option String) :
    (getToolsForSession st sid).2 = st
    ∧ (getToolsForSession st sid).1 =
        (mapGet? (toolsMap st) (resolveToolSessionId sid)).getD []
    ∧ (mapHas (toolsMap st) (resolveToolSessionId sid) = false →
        (getToolsForSession st sid).1 = []) := by
  refine ⟨rfl, rfl, fun h => ?_⟩
  rw [getTools_fst, mapGet?_eq_none_of_not_has _ _ h]
  rfl

/-- C8 witness: reading the never-created session `"s2"` of the initial
state yields the empty sequence. -/
theorem read_pure_defensive_witness :
    (getToolsForSession (initState Nat) (some "s2")).1 = [] :=
  (read_pure_defensive (initState Nat) (some "s2")).2.2 (by decide)

/-- C9: initialization postcondition.  The freshly created singleton has an
empty `allowedOrgs` set and a `tools` mapping with the single entry
`"default" ↦ []`; a no-argument read returns the empty sequence and
`resolveToolSessionId` of an undefined argument is `"default"`. -/
theorem init_post (α : Type) :
    (initState α).allowedOrgs = []
    ∧ toolsMap (initState α) = [(DEFAULT_TOOL_SESSION_ID, [])]
    ∧ (getToolsForSession (initState α) none).1 = []
    ∧ resolveToolSessionId none = DEFAULT_TOOL_SESSION_ID
    ∧ DEFAULT_TOOL_SESSION_ID = "default" := by
  refine ⟨rfl, rfl, ?_, rfl, rfl⟩
  rw [getTools_fst]
  show (mapGet? [(DEFAULT_TOOL_SESSION_ID, [])] DEFAULT_TOOL_SESSION_ID).getD [] = []
  simp [mapGet?]

/-- C10: key-frame property.  Every tool-session operation leaves the
`allowedOrgs` entry unchanged, and `safeSet`/`safeUpdate` at the
`allowedOrgs` key leave the `tools` entry — its stored reference, the whole
heap of map objects, and hence its contents — unchanged. -/
theorem key_frame {ε : Type} (st : CacheState α) (sid : Option String)
    (f : List α → List α) (v : List String) (g : List String → Except ε (List String)) :
    (ensureToolSession st sid).allowedOrgs = st.allowedOrgs
    ∧ (resetToolsForSession st sid).allowedOrgs = st.allowedOrgs
    ∧ (deleteToolSession st sid).allowedOrgs = st.allowedOrgs
    ∧ (updateToolsForSession st sid f).1.allowedOrgs = st.allowedOrgs
    ∧ (safeSet st CacheKey.allowedOrgs v).toolsRef = st.toolsRef
    ∧ (safeSet st CacheKey.allowedOrgs v).heap = st.heap
    ∧ toolsMap (safeSet st CacheKey.allowedOrgs v) = toolsMap st
    ∧ (safeUpdate st CacheKey.allowedOrgs g).1.toolsRef = st.toolsRef
    ∧ (safeUpdate st CacheKey.allowedOrgs g).1.heap = st.heap
    ∧ toolsMap (safeUpdate st CacheKey.allowedOrgs g).1 = toolsMap st := by
  have hens : (ensureToolSession st sid).allowedOrgs = st.allowedOrgs := by
    by_cases hc : mapHas (toolsMap st) (resolveToolSessionId sid) = true <;>
      simp [ensureToolSession, hc, heapWrite, heapAlloc]
  have hdel : (deleteToolSession st sid).allowedOrgs = st.allowedOrgs := by
    by_cases hc : mapHas (toolsMap st) (resolveToolSessionId sid) = true <;>
      simp [deleteToolSession, hc, heapWrite, heapAlloc]
  have hsu : (safeUpdate st CacheKey.allowedOrgs g).1.toolsRef = st.toolsRef
      ∧ (safeUpdate st CacheKey.allowedOrgs g).1.heap = st.heap := by
    cases hg : g (cacheGet st CacheKey.allowedOrgs) <;>
      simp [safeUpdate, hg, cacheSet]
  exact ⟨hens, rfl, hdel, rfl, rfl, rfl, rfl, hsu.1, hsu.2,
    by show ((((safeUpdate st CacheKey.allowedOrgs g).1.heap.get?
          (safeUpdate st CacheKey.allowedOrgs g).1.toolsRef)).getD []) = toolsMap st
       rw [hsu.1, hsu.2]
       rfl⟩

end SalesforceMcpCache
